import Mathlib

/-!
Shallow embedding of the Conway's Game of Life engine in `src/life.py`
(class `GameOfLife`), together with the string-level model of its
line-oriented pattern format (`save_pattern` / `load_pattern`).

Text is modelled as `List Char`.  Python `int` coordinates are `Int`.
The live-cell container (a Python `set` of pairs) is a `Finset (Int × Int)`.
-/

/-- Python `str.strip()`: remove whitespace from both ends of the text. -/
def pyStrip (l : List Char) : List Char :=
  ((l.dropWhile Char.isWhitespace).reverse.dropWhile Char.isWhitespace).reverse

/-- Value of a decimal digit character (`'0'` ↦ 0, …, `'9'` ↦ 9). -/
def digVal (c : Char) : Nat := c.toNat - 48

/-- Digits-only part of Python's `int(s)`: a nonempty all-digit string read
in base 10, `none` otherwise. -/
def digitsVal (ds : List Char) : Option Nat :=
  if ds ≠ [] ∧ ds.all Char.isDigit then
    some (ds.foldl (fun a c => 10 * a + digVal c) 0)
  else none

/-- Python's `int(s)` on text: optional surrounding whitespace, an optional
single leading sign, then one or more decimal digits; anything else raises
`ValueError`, modelled as `none`. -/
def pyInt (s : List Char) : Option Int :=
  let t := pyStrip s
  if t.head? = some '-' then (digitsVal t.tail).map (fun n => -(n : Int))
  else if t.head? = some '+' then (digitsVal t.tail).map (fun n => (n : Int))
  else (digitsVal t).map (fun n => (n : Int))

/-- Python `s.split(',')`: split the text at every comma.  The empty text
yields `[[]]`, matching `"".split(',') == [""]`. -/
def splitOnComma : List Char → List (List Char)
  | [] => [[]]
  | c :: rest =>
    if c = ',' then [] :: splitOnComma rest
    else
      match splitOnComma rest with
      | [] => [[c]]
      | h :: t => (c :: h) :: t

/-- Python `x, y = map(int, line.split(','))` from `load_pattern`: succeeds
exactly when the line has two comma-separated fields and both parse as
integers; any other shape raises `ValueError`, modelled as `none`. -/
def parseLine (l : List Char) : Option (Int × Int) :=
  match (splitOnComma l).map pyInt with
  | [some x, some y] => some (x, y)
  | _ => none

/-- Decimal rendering of a natural number, as Python `str` does. -/
def natStr (n : Nat) : List Char :=
  if n = 0 then ['0'] else ((Nat.digits 10 n).map Nat.digitChar).reverse

/-- Python f-string rendering `f"{x}"` of an integer. -/
def intStr (x : Int) : List Char :=
  if x < 0 then '-' :: natStr x.natAbs else natStr x.natAbs

/-- One output line of `save_pattern`: `f"{x},{y}"`. -/
def renderCell (c : Int × Int) : List Char := intStr c.1 ++ ',' :: intStr c.2

/-- State of the `GameOfLife` class from `src/life.py`. -/
@[ext]
structure GameOfLife where
  width : Int
  height : Int
  live_cells : Finset (Int × Int)
  generation : Int
  paused : Bool
deriving DecidableEq

namespace GameOfLife

/-- Constructor `GameOfLife.__init__(width, height)`: stores the bounds
unchecked, with an empty live set, generation 0 and paused. -/
def init (width height : Int) : GameOfLife :=
  { width := width, height := height, live_cells := ∅, generation := 0,
    paused := true }

/-- Bounds test `0 <= nx < self.width and 0 <= ny < self.height` used
throughout `life.py`. -/
def inBounds (g : GameOfLife) (c : Int × Int) : Bool :=
  decide (0 ≤ c.1 ∧ c.1 < g.width ∧ 0 ≤ c.2 ∧ c.2 < g.height)

/-- Method `clear`: empty the live set and reset the generation counter. -/
def clear (g : GameOfLife) : GameOfLife :=
  { g with live_cells := ∅, generation := 0 }

/-- Grid cells `(x, y)` with `x in range(width)`, `y in range(height)`. -/
def gridCells (g : GameOfLife) : Finset (Int × Int) :=
  Finset.Icc 0 (g.width - 1) ×ˢ Finset.Icc 0 (g.height - 1)

/-- Method `initialize_random(density)`: the outcome of each per-cell draw
`random.random() < density` is abstracted as a boolean oracle `pick`.  The
live set is replaced by the picked subset of the grid; no other field is
touched (in particular the source does not reset `generation`). -/
def initialize_random (g : GameOfLife) (pick : Int × Int → Bool) : GameOfLife :=
  { g with live_cells := g.gridCells.filter (fun c => pick c = true) }

/-- The 8 `(dx, dy)` offsets scanned by `count_live_neighbors`, in loop
order (`dy` outer, `dx` inner), with `(0, 0)` skipped. -/
def neighborOffsets : List (Int × Int) :=
  [(-1, -1), (0, -1), (1, -1), (-1, 0), (1, 0), (-1, 1), (0, 1), (1, 1)]

/-- Method `count_live_neighbors(x, y)`: the number of offsets whose target
is inside the grid and in the live set. -/
def count_live_neighbors (g : GameOfLife) (x y : Int) : Nat :=
  (neighborOffsets.filter
    (fun d => g.inBounds (x + d.1, y + d.2) &&
      decide ((x + d.1, y + d.2) ∈ g.live_cells))).length

/-- The 9 `(dx, dy)` offsets scanned by the candidate loop of
`next_generation` (no skip of `(0, 0)`), in loop order. -/
def allOffsets : List (Int × Int) :=
  [(-1, -1), (0, -1), (1, -1), (-1, 0), (0, 0), (1, 0), (-1, 1), (0, 1), (1, 1)]

/-- Candidate set of `next_generation`: every in-bounds cell of the closed
Moore neighborhood of a currently-live cell. -/
def candidates (g : GameOfLife) : Finset (Int × Int) :=
  g.live_cells.biUnion (fun c =>
    ((allOffsets.map (fun d => (c.1 + d.1, c.2 + d.2))).filter g.inBounds).toFinset)

/-- Body of the candidate-evaluation loop of `next_generation`: Conway's
rule for one cell, read against the pre-transition live set. -/
def becomesLive (g : GameOfLife) (c : Int × Int) : Bool :=
  let n := g.count_live_neighbors c.1 c.2
  (decide (c ∈ g.live_cells) && (n = 2 || n = 3)) ||
    (!decide (c ∈ g.live_cells) && n = 3)

/-- Method `next_generation`: replace the live set by the rule-surviving
candidates and increment the generation counter. -/
def next_generation (g : GameOfLife) : GameOfLife :=
  { g with
    live_cells := g.candidates.filter (fun c => g.becomesLive c = true),
    generation := g.generation + 1 }

/-- Method `toggle_cell(x, y)`: flip membership of `(x, y)` in the live
set.  The source performs no bounds check. -/
def toggle_cell (g : GameOfLife) (x y : Int) : GameOfLife :=
  if (x, y) ∈ g.live_cells then { g with live_cells := g.live_cells.erase (x, y) }
  else { g with live_cells := insert (x, y) g.live_cells }

end GameOfLife

/-- Ascending order used by Python's `sorted` on coordinate pairs:
lexicographic, first component primary. -/
def lexLe (a b : Int × Int) : Prop :=
  a.1 < b.1 ∨ (a.1 = b.1 ∧ a.2 ≤ b.2)

instance : DecidableRel lexLe := fun a b => by
  unfold lexLe; exact inferInstance

instance : IsTrans (Int × Int) lexLe := by
  constructor
  rintro ⟨a1, a2⟩ ⟨b1, b2⟩ ⟨c1, c2⟩ h₁ h₂
  simp only [lexLe] at *
  omega

instance : IsAntisymm (Int × Int) lexLe := by
  constructor
  rintro ⟨a1, a2⟩ ⟨b1, b2⟩ h₁ h₂
  simp only [lexLe] at *
  have : a1 = b1 ∧ a2 = b2 := by omega
  simp [this.1, this.2]

instance : IsTotal (Int × Int) lexLe := by
  constructor
  rintro ⟨a1, a2⟩ ⟨b1, b2⟩
  simp only [lexLe]
  omega

namespace GameOfLife

/-- Method `save_pattern` without the file handle: the sequence of emitted
lines, `f"{x},{y}"` for `(x, y)` over `sorted(self.live_cells)`. -/
def save_pattern (g : GameOfLife) : List (List Char) :=
  (g.live_cells.sort lexLe).map renderCell

/-- Line loop of `load_pattern`: strip each line, skip blank lines, parse
`x, y`, insert when in bounds.  A `ValueError` from parsing aborts the loop
at once; the state reached so far and the offending raw line are returned. -/
def loadLoop (g : GameOfLife) : List (List Char) → GameOfLife × Option (List Char)
  | [] => (g, none)
  | line :: rest =>
    let s := pyStrip line
    if s = [] then loadLoop g rest
    else
      match parseLine s with
      | none => (g, some line)
      | some (x, y) =>
        loadLoop
          (if g.inBounds (x, y) then { g with live_cells := insert (x, y) g.live_cells }
           else g) rest

/-- Method `load_pattern` without the file handle: `self.clear()`, then the
line loop over the given lines. -/
def load_pattern (g : GameOfLife) (lines : List (List Char)) :
    GameOfLife × Option (List Char) :=
  loadLoop g.clear lines

end GameOfLife

/-! ## Basic membership lemmas -/

namespace GameOfLife

theorem inBounds_iff (g : GameOfLife) (c : Int × Int) :
    g.inBounds c = true ↔ (0 ≤ c.1 ∧ c.1 < g.width ∧ 0 ≤ c.2 ∧ c.2 < g.height) := by
  simp [inBounds]

theorem mem_gridCells (g : GameOfLife) (c : Int × Int) :
    c ∈ g.gridCells ↔ g.inBounds c = true := by
  rcases c with ⟨a, b⟩
  simp [gridCells, Finset.mem_product, Finset.mem_Icc, inBounds_iff]
  omega

theorem mem_candidates (g : GameOfLife) (c : Int × Int) :
    c ∈ g.candidates ↔
      (∃ q ∈ g.live_cells, ∃ d ∈ allOffsets, c = (q.1 + d.1, q.2 + d.2)) ∧
        g.inBounds c = true := by
  simp only [candidates, Finset.mem_biUnion, List.mem_toFinset, List.mem_filter,
    List.mem_map]
  constructor
  · rintro ⟨q, hq, ⟨d, hd, rfl⟩, hb⟩
    exact ⟨⟨q, hq, d, hd, rfl⟩, hb⟩
  · rintro ⟨⟨q, hq, d, hd, rfl⟩, hb⟩
    exact ⟨q, hq, ⟨d, hd, rfl⟩, hb⟩

theorem mem_next_generation (g : GameOfLife) (c : Int × Int) :
    c ∈ g.next_generation.live_cells ↔ c ∈ g.candidates ∧ g.becomesLive c = true := by
  simp [next_generation, Finset.mem_filter]

theorem live_mem_candidates (g : GameOfLife) (c : Int × Int)
    (hc : c ∈ g.live_cells) (hb : g.inBounds c = true) : c ∈ g.candidates := by
  refine (mem_candidates g c).mpr ⟨⟨c, hc, (0, 0), by decide, ?_⟩, hb⟩
  cases c; simp

theorem becomesLive_of_live (g : GameOfLife) (c : Int × Int) (hc : c ∈ g.live_cells) :
    (g.becomesLive c = true) ↔
      (g.count_live_neighbors c.1 c.2 = 2 ∨ g.count_live_neighbors c.1 c.2 = 3) := by
  simp [becomesLive, hc]

theorem becomesLive_of_dead (g : GameOfLife) (c : Int × Int) (hc : c ∉ g.live_cells) :
    (g.becomesLive c = true) ↔ g.count_live_neighbors c.1 c.2 = 3 := by
  simp [becomesLive, hc]

theorem exists_live_neighbor_of_count_pos (g : GameOfLife) (x y : Int)
    (h : 0 < g.count_live_neighbors x y) :
    ∃ d ∈ neighborOffsets,
      g.inBounds (x + d.1, y + d.2) = true ∧ (x + d.1, y + d.2) ∈ g.live_cells := by
  unfold count_live_neighbors at h
  rw [List.length_pos] at h
  obtain ⟨d, hd⟩ := List.exists_mem_of_ne_nil _ h
  rw [List.mem_filter, Bool.and_eq_true, decide_eq_true_eq] at hd
  exact ⟨d, hd.1, hd.2.1, hd.2.2⟩

theorem neg_mem_allOffsets :
    ∀ d ∈ neighborOffsets, (-d.1, -d.2) ∈ allOffsets := by decide

end GameOfLife

/-- Conway's rule evaluated on every cell of the full `W×H` grid, the
reference computation the spec compares the candidate-set optimization
against. -/
def fullGridNext (g : GameOfLife) : Finset (Int × Int) :=
  g.gridCells.filter (fun c => g.becomesLive c = true)

/-- C1: for every grid state (one satisfying the documented invariant that
all live cells are in bounds), `next_generation` evaluates each cell
against the pre-transition live set only: a live cell is in the new set iff
its live-neighbor count is 2 or 3, a dead candidate iff its count is
exactly 3, and the generation counter increases by exactly 1. -/
theorem C1_step_rule (g : GameOfLife)
    (hinv : ∀ c ∈ g.live_cells, g.inBounds c = true) :
    (∀ c ∈ g.live_cells,
        (c ∈ g.next_generation.live_cells ↔
          (g.count_live_neighbors c.1 c.2 = 2 ∨ g.count_live_neighbors c.1 c.2 = 3))) ∧
    (∀ c ∈ g.candidates, c ∉ g.live_cells →
        (c ∈ g.next_generation.live_cells ↔ g.count_live_neighbors c.1 c.2 = 3)) ∧
    g.next_generation.generation = g.generation + 1 := by
  refine ⟨?_, ?_, rfl⟩
  · intro c hc
    rw [GameOfLife.mem_next_generation, GameOfLife.becomesLive_of_live g c hc]
    have hcand := GameOfLife.live_mem_candidates g c hc (hinv c hc)
    tauto
  · intro c hcand hdead
    rw [GameOfLife.mem_next_generation, GameOfLife.becomesLive_of_dead g c hdead]
    tauto

/-- C1 witness: the rule characterization instantiated on a concrete
blinker state. -/
theorem C1_step_rule_witness :
    (∀ c ∈ (⟨5, 5, {(1, 2), (2, 2), (3, 2)}, 0, true⟩ : GameOfLife).live_cells,
        (⟨5, 5, {(1, 2), (2, 2), (3, 2)}, 0, true⟩ : GameOfLife).inBounds c = true) ∧
    ((∀ c ∈ (⟨5, 5, {(1, 2), (2, 2), (3, 2)}, 0, true⟩ : GameOfLife).live_cells,
        (c ∈ (⟨5, 5, {(1, 2), (2, 2), (3, 2)}, 0, true⟩ : GameOfLife).next_generation.live_cells ↔
          ((⟨5, 5, {(1, 2), (2, 2), (3, 2)}, 0, true⟩ : GameOfLife).count_live_neighbors c.1 c.2 = 2 ∨
            (⟨5, 5, {(1, 2), (2, 2), (3, 2)}, 0, true⟩ : GameOfLife).count_live_neighbors c.1 c.2 = 3))) ∧
    (∀ c ∈ (⟨5, 5, {(1, 2), (2, 2), (3, 2)}, 0, true⟩ : GameOfLife).candidates,
        c ∉ (⟨5, 5, {(1, 2), (2, 2), (3, 2)}, 0, true⟩ : GameOfLife).live_cells →
        (c ∈ (⟨5, 5, {(1, 2), (2, 2), (3, 2)}, 0, true⟩ : GameOfLife).next_generation.live_cells ↔
          (⟨5, 5, {(1, 2), (2, 2), (3, 2)}, 0, true⟩ : GameOfLife).count_live_neighbors c.1 c.2 = 3)) ∧
    (⟨5, 5, {(1, 2), (2, 2), (3, 2)}, 0, true⟩ : GameOfLife).next_generation.generation =
      (⟨5, 5, {(1, 2), (2, 2), (3, 2)}, 0, true⟩ : GameOfLife).generation + 1) :=
  ⟨by decide, C1_step_rule _ (by decide)⟩

/-- C2: for an in-bounds live set, restricting the evaluation to the
candidate set gives exactly the same next live set as applying Conway's
rule to every cell of the full grid. -/
theorem C2_candidate_set_complete (g : GameOfLife)
    (hinv : ∀ c ∈ g.live_cells, g.inBounds c = true) :
    g.next_generation.live_cells = fullGridNext g := by
  ext c
  rw [GameOfLife.mem_next_generation, fullGridNext, Finset.mem_filter,
    GameOfLife.mem_gridCells]
  constructor
  · rintro ⟨hcand, hrule⟩
    exact ⟨((GameOfLife.mem_candidates g c).mp hcand).2, hrule⟩
  · rintro ⟨hb, hrule⟩
    refine ⟨?_, hrule⟩
    by_cases hc : c ∈ g.live_cells
    · exact GameOfLife.live_mem_candidates g c hc hb
    · have h3 := (GameOfLife.becomesLive_of_dead g c hc).mp hrule
      have hpos : 0 < g.count_live_neighbors c.1 c.2 := by omega
      obtain ⟨d, hd, _, hmem⟩ :=
        GameOfLife.exists_live_neighbor_of_count_pos g c.1 c.2 hpos
      refine (GameOfLife.mem_candidates g c).mpr
        ⟨⟨(c.1 + d.1, c.2 + d.2), hmem, (-d.1, -d.2),
          GameOfLife.neg_mem_allOffsets d hd, ?_⟩, hb⟩
      cases c
      simp only [Prod.mk.injEq]
      constructor <;> ring

/-- C2 witness: candidate-set equivalence instantiated on a concrete
blinker state. -/
theorem C2_candidate_set_complete_witness :
    (∀ c ∈ (⟨5, 5, {(1, 2), (2, 2), (3, 2)}, 0, true⟩ : GameOfLife).live_cells,
        (⟨5, 5, {(1, 2), (2, 2), (3, 2)}, 0, true⟩ : GameOfLife).inBounds c = true) ∧
    (⟨5, 5, {(1, 2), (2, 2), (3, 2)}, 0, true⟩ : GameOfLife).next_generation.live_cells =
      fullGridNext ⟨5, 5, {(1, 2), (2, 2), (3, 2)}, 0, true⟩ :=
  ⟨by decide, C2_candidate_set_complete _ (by decide)⟩

/-- C5 counterexample: toggling the out-of-bounds cell (100, 100) on a
10×10 grid does not abort with `OutOfBounds`; it changes the live set. -/
theorem C5_toggle_oob_cex :
    (GameOfLife.init 10 10).inBounds (100, 100) = false ∧
    ((GameOfLife.init 10 10).toggle_cell 100 100).live_cells =
      {((100 : Int), (100 : Int))} ∧
    ((GameOfLife.init 10 10).toggle_cell 100 100).live_cells ≠
      (GameOfLife.init 10 10).live_cells := by decide

/-- C5 amended: `toggle_cell` performs no bounds check.  For every `(x, y)`,
in bounds or not, it flips membership of `(x, y)` in the live set, leaves
every other cell's membership alone, and does not change the generation
counter or the grid bounds. -/
theorem C5_toggle_flips :
    ∀ (g : GameOfLife) (x y : Int) (c : Int × Int),
      (c ∈ (g.toggle_cell x y).live_cells ↔
        (if c = (x, y) then (x, y) ∉ g.live_cells else c ∈ g.live_cells)) ∧
      (g.toggle_cell x y).generation = g.generation ∧
      (g.toggle_cell x y).width = g.width ∧
      (g.toggle_cell x y).height = g.height := by
  intro g x y c
  unfold GameOfLife.toggle_cell
  by_cases hm : (x, y) ∈ g.live_cells <;>
    by_cases hc : c = (x, y) <;>
      simp [hm, hc, Finset.mem_erase, Finset.mem_insert]

/-- C6 counterexample: construction with width 0 (which is ≤ 0) does not
fail with `InvalidDimension`; it returns an ordinary engine state. -/
theorem C6_init_no_validation_cex :
    (GameOfLife.init 0 5).width = 0 ∧
    (GameOfLife.init 0 5).live_cells = ∅ ∧
    (GameOfLife.init 0 5).generation = 0 := by decide

/-- C6 amended: construction performs no dimension validation.  For every
width and height, including non-positive ones, it returns an engine with
the given bounds, an empty live-cell set, and generation 0. -/
theorem C6_init_fields :
    ∀ width height : Int,
      (GameOfLife.init width height).width = width ∧
      (GameOfLife.init width height).height = height ∧
      (GameOfLife.init width height).live_cells = ∅ ∧
      (GameOfLife.init width height).generation = 0 :=
  fun _ _ => ⟨rfl, rfl, rfl, rfl⟩

/-- C7 counterexample: randomizing an engine at generation 5 (here with
every per-cell draw failing, so the new live set is empty) leaves the
generation counter at 5 rather than resetting it to 0. -/
theorem C7_randomize_generation_cex :
    ((⟨3, 3, ∅, 5, true⟩ : GameOfLife).initialize_random
        (fun _ => false)).generation = 5 ∧ ((5 : Int) ≠ 0) := by decide

/-- C7 amended: `initialize_random` replaces the live-cell set by the
oracle-picked subset of the grid, but — unlike `clear`, which resets the
generation counter to 0 — it leaves the generation counter unchanged. -/
theorem C7_randomize_keeps_generation :
    ∀ (g : GameOfLife) (pick : Int × Int → Bool),
      (g.initialize_random pick).live_cells =
        g.gridCells.filter (fun c => pick c = true) ∧
      (g.initialize_random pick).generation = g.generation ∧
      g.clear.generation = 0 :=
  fun _ _ => ⟨rfl, rfl, rfl⟩

/-- C10: whatever the starting live set — including one holding
out-of-bounds coordinates, which the unchecked `toggle_cell` can introduce
— the live set produced by `next_generation` only contains cells of the
`[0,W)×[0,H)` grid. -/
theorem C10_step_restores_bounds :
    ∀ g : GameOfLife, g.next_generation.live_cells ⊆ g.gridCells := by
  intro g c hc
  rw [GameOfLife.mem_next_generation] at hc
  exact (GameOfLife.mem_gridCells g c).mpr
    ((GameOfLife.mem_candidates g c).mp hc.1).2

/-- C10 witness: a state whose only live cell is out of bounds still steps
to an in-bounds (here empty) live set. -/
theorem C10_step_restores_bounds_witness :
    (⟨3, 3, {(50, 50)}, 0, true⟩ : GameOfLife).next_generation.live_cells ⊆
      (⟨3, 3, {(50, 50)}, 0, true⟩ : GameOfLife).gridCells :=
  C10_step_restores_bounds ⟨3, 3, {(50, 50)}, 0, true⟩

/-! ## Neighbor counting (C8) -/

/-- The 8 Moore-neighborhood positions of `(x, y)`: the spec-side notion of
"the 8 surrounding cells, skipping the center". -/
def moorePositions (x y : Int) : Finset (Int × Int) :=
  {(x - 1, y - 1), (x, y - 1), (x + 1, y - 1), (x - 1, y),
   (x + 1, y), (x - 1, y + 1), (x, y + 1), (x + 1, y + 1)}

theorem neighborTargets_nodup (x y : Int) :
    (GameOfLife.neighborOffsets.map (fun d => (x + d.1, y + d.2))).Nodup := by
  apply List.Nodup.map
  · rintro ⟨a1, a2⟩ ⟨b1, b2⟩ h
    simp only [Prod.mk.injEq] at h ⊢
    omega
  · decide

set_option maxHeartbeats 1000000 in
theorem neighborTargets_toFinset (x y : Int) :
    (GameOfLife.neighborOffsets.map (fun d => (x + d.1, y + d.2))).toFinset
      = moorePositions x y := by
  ext ⟨a, b⟩
  simp only [List.mem_toFinset, List.mem_map, GameOfLife.neighborOffsets,
    List.mem_cons, List.not_mem_nil, or_false, moorePositions,
    Finset.mem_insert, Finset.mem_singleton, Prod.mk.injEq, Prod.ext_iff]
  constructor
  · rintro ⟨⟨d1, d2⟩, hd, h1, h2⟩
    simp only [Prod.mk.injEq] at hd
    omega
  · rintro (⟨h1, h2⟩ | ⟨h1, h2⟩ | ⟨h1, h2⟩ | ⟨h1, h2⟩ |
      ⟨h1, h2⟩ | ⟨h1, h2⟩ | ⟨h1, h2⟩ | ⟨h1, h2⟩)
    · exact ⟨(-1, -1), by simp, by omega, by omega⟩
    · exact ⟨(0, -1), by simp, by omega, by omega⟩
    · exact ⟨(1, -1), by simp, by omega, by omega⟩
    · exact ⟨(-1, 0), by simp, by omega, by omega⟩
    · exact ⟨(1, 0), by simp, by omega, by omega⟩
    · exact ⟨(-1, 1), by simp, by omega, by omega⟩
    · exact ⟨(0, 1), by simp, by omega, by omega⟩
    · exact ⟨(1, 1), by simp, by omega, by omega⟩

/-- C8: for every in-bounds cell and every live set, the neighbor count is
the number of live cells among the 8 Moore positions, out-of-bounds
positions counting as dead, and it never exceeds 8. -/
theorem C8_count_live_neighbors (g : GameOfLife) (x y : Int)
    (hb : g.inBounds (x, y) = true) :
    g.count_live_neighbors x y =
      ((moorePositions x y).filter
        (fun p => g.inBounds p = true ∧ p ∈ g.live_cells)).card ∧
    g.count_live_neighbors x y ≤ 8 := by
  constructor
  · unfold GameOfLife.count_live_neighbors
    have h1 : (GameOfLife.neighborOffsets.filter
        (fun d => g.inBounds (x + d.1, y + d.2) &&
          decide ((x + d.1, y + d.2) ∈ g.live_cells))).length
        = ((GameOfLife.neighborOffsets.map (fun d => (x + d.1, y + d.2))).filter
            (fun q => g.inBounds q && decide (q ∈ g.live_cells))).length := by
      rw [List.filter_map, List.length_map]
      rfl
    rw [h1,
      ← List.toFinset_card_of_nodup
        (List.Nodup.filter _ (neighborTargets_nodup x y)),
      List.toFinset_filter, neighborTargets_toFinset]
    congr 1
    apply Finset.filter_congr
    intro q _
    simp
  · exact le_trans (List.length_filter_le _ _) (by decide)

/-- C8 witness: the count characterization instantiated at the center of a
concrete blinker state. -/
theorem C8_count_live_neighbors_witness :
    (⟨5, 5, {(1, 2), (2, 2), (3, 2)}, 0, true⟩ : GameOfLife).inBounds (2, 2) = true ∧
    ((⟨5, 5, {(1, 2), (2, 2), (3, 2)}, 0, true⟩ : GameOfLife).count_live_neighbors 2 2 =
      ((moorePositions 2 2).filter
        (fun p => (⟨5, 5, {(1, 2), (2, 2), (3, 2)}, 0, true⟩ : GameOfLife).inBounds p = true ∧
          p ∈ (⟨5, 5, {(1, 2), (2, 2), (3, 2)}, 0, true⟩ : GameOfLife).live_cells)).card ∧
    (⟨5, 5, {(1, 2), (2, 2), (3, 2)}, 0, true⟩ : GameOfLife).count_live_neighbors 2 2 ≤ 8) :=
  ⟨by decide, C8_count_live_neighbors _ 2 2 (by decide)⟩

/-! ## Bounds stability and the blinker (C9) -/

theorem allOffsets_le_one : ∀ d ∈ GameOfLife.allOffsets, d.1 ≤ 1 ∧ d.2 ≤ 1 := by
  decide

theorem candidates_bounds_stable (W H Wb Hb : Int) (S : Finset (Int × Int))
    (gen genb : Int) (p pb : Bool) (hW : W ≤ Wb) (hH : H ≤ Hb)
    (hS : ∀ c ∈ S, c.1 + 1 < W ∧ c.2 + 1 < H) :
    (⟨Wb, Hb, S, genb, pb⟩ : GameOfLife).candidates
      = (⟨W, H, S, gen, p⟩ : GameOfLife).candidates := by
  ext c
  rw [GameOfLife.mem_candidates, GameOfLife.mem_candidates]
  constructor
  · rintro ⟨⟨q, hq, d, hd, rfl⟩, hb⟩
    have h1 := allOffsets_le_one d hd
    have h2 := hS q hq
    rw [GameOfLife.inBounds_iff] at *
    exact ⟨⟨q, hq, d, hd, rfl⟩, by simp at *; omega⟩
  · rintro ⟨⟨q, hq, d, hd, rfl⟩, hb⟩
    have h1 := allOffsets_le_one d hd
    have h2 := hS q hq
    rw [GameOfLife.inBounds_iff] at *
    exact ⟨⟨q, hq, d, hd, rfl⟩, by simp at *; omega⟩

theorem count_bounds_stable (W H Wb Hb : Int) (S : Finset (Int × Int))
    (gen genb : Int) (p pb : Bool) (hW : W ≤ Wb) (hH : H ≤ Hb)
    (hS : ∀ c ∈ S, c.1 + 1 < W ∧ c.2 + 1 < H) (x y : Int) :
    (⟨Wb, Hb, S, genb, pb⟩ : GameOfLife).count_live_neighbors x y
      = (⟨W, H, S, gen, p⟩ : GameOfLife).count_live_neighbors x y := by
  unfold GameOfLife.count_live_neighbors
  congr 1
  apply List.filter_congr
  intro d _
  by_cases hmem : (x + d.1, y + d.2) ∈ S
  · have h2 := hS _ hmem
    simp only [hmem, GameOfLife.inBounds]
    congr 1
    rw [decide_eq_decide]
    simp only at h2
    omega
  · simp [hmem]

theorem next_gen_bounds_stable (W H Wb Hb : Int) (S : Finset (Int × Int))
    (gen : Int) (p : Bool) (hW : W ≤ Wb) (hH : H ≤ Hb)
    (hS : ∀ c ∈ S, c.1 + 1 < W ∧ c.2 + 1 < H) :
    (⟨Wb, Hb, S, gen, p⟩ : GameOfLife).next_generation.live_cells
      = (⟨W, H, S, gen, p⟩ : GameOfLife).next_generation.live_cells := by
  show Finset.filter _ _ = Finset.filter _ _
  rw [candidates_bounds_stable W H Wb Hb S gen gen p p hW hH hS]
  apply Finset.filter_congr
  intro c _
  have hcount := count_bounds_stable W H Wb Hb S gen gen p p hW hH hS c.1 c.2
  simp only [GameOfLife.becomesLive, hcount]

/-- Horizontal blinker of the spec's testable property and of
`src/test_blinker.py`. -/
def blinkH : Finset (Int × Int) := {(1, 2), (2, 2), (3, 2)}

/-- Vertical blinker: the expected state after one step. -/
def blinkV : Finset (Int × Int) := {(2, 1), (2, 2), (2, 3)}

/-- C9: on any grid of at least 5×5, the horizontal blinker steps to the
vertical one, steps back to the horizontal one, and the generation counter
increases by 1 on each call. -/
theorem C9_blinker (W H gen : Int) (p : Bool) (hW : 5 ≤ W) (hH : 5 ≤ H) :
    (⟨W, H, blinkH, gen, p⟩ : GameOfLife).next_generation.live_cells = blinkV ∧
    (⟨W, H, blinkH, gen, p⟩ : GameOfLife).next_generation.generation = gen + 1 ∧
    (⟨W, H, blinkH, gen, p⟩ : GameOfLife).next_generation.next_generation.live_cells
      = blinkH ∧
    (⟨W, H, blinkH, gen, p⟩ : GameOfLife).next_generation.next_generation.generation
      = gen + 2 := by
  have h1 : (⟨W, H, blinkH, gen, p⟩ : GameOfLife).next_generation.live_cells = blinkV := by
    rw [next_gen_bounds_stable 5 5 W H blinkH gen p hW hH (by decide)]
    have : (⟨5, 5, blinkH, gen, p⟩ : GameOfLife).next_generation.live_cells
        = (⟨5, 5, blinkH, 0, true⟩ : GameOfLife).next_generation.live_cells := rfl
    rw [this]
    decide
  have hst : (⟨W, H, blinkH, gen, p⟩ : GameOfLife).next_generation
      = (⟨W, H, blinkV, gen + 1, p⟩ : GameOfLife) := by
    apply GameOfLife.ext <;> first | rfl | exact h1
  refine ⟨h1, rfl, ?_, ?_⟩
  · rw [hst, next_gen_bounds_stable 5 5 W H blinkV (gen + 1) p hW hH (by decide)]
    have : (⟨5, 5, blinkV, gen + 1, p⟩ : GameOfLife).next_generation.live_cells
        = (⟨5, 5, blinkV, 0, true⟩ : GameOfLife).next_generation.live_cells := rfl
    rw [this]
    decide
  · rw [hst]
    show gen + 1 + 1 = gen + 2
    omega

/-- C9 witness: the blinker oscillation on the concrete 5×5 grid of
`src/test_blinker.py`. -/
theorem C9_blinker_witness :
    (5 : Int) ≤ 5 ∧
    ((⟨5, 5, blinkH, 0, true⟩ : GameOfLife).next_generation.live_cells = blinkV ∧
    (⟨5, 5, blinkH, 0, true⟩ : GameOfLife).next_generation.generation = 0 + 1 ∧
    (⟨5, 5, blinkH, 0, true⟩ : GameOfLife).next_generation.next_generation.live_cells
      = blinkH ∧
    (⟨5, 5, blinkH, 0, true⟩ : GameOfLife).next_generation.next_generation.generation
      = 0 + 2) :=
  ⟨by decide, C9_blinker 5 5 0 true (by decide) (by decide)⟩

/-! ## Decimal rendering and parsing (toward C3, C4) -/

theorem digitChar_props :
    ∀ d : Nat, d < 10 → (Nat.digitChar d).isDigit = true ∧
      (Nat.digitChar d).isWhitespace = false ∧ Nat.digitChar d ≠ ',' ∧
      digVal (Nat.digitChar d) = d := by decide

theorem natStr_ne_nil (n : Nat) : natStr n ≠ [] := by
  unfold natStr
  by_cases h : n = 0
  · simp [h]
  · simp [h, Nat.digits_ne_nil_iff_ne_zero.mpr h]

theorem natStr_chars (n : Nat) :
    ∀ c ∈ natStr n, c.isDigit = true ∧ c.isWhitespace = false ∧ c ≠ ',' := by
  intro c hc
  unfold natStr at hc
  by_cases h : n = 0
  · rw [h] at hc
    simp at hc
    rw [hc]
    exact ⟨by decide, by decide, by decide⟩
  · rw [if_neg h, List.mem_reverse, List.mem_map] at hc
    obtain ⟨d, hd, rfl⟩ := hc
    have hlt : d < 10 := Nat.digits_lt_base (by norm_num) hd
    exact ⟨(digitChar_props d hlt).1, (digitChar_props d hlt).2.1,
      (digitChar_props d hlt).2.2.1⟩

theorem foldl_digitChar (l : List Nat) (hl : ∀ d ∈ l, d < 10) (a : Nat) :
    ((l.map Nat.digitChar).reverse).foldl (fun acc c => 10 * acc + digVal c) a
      = a * 10 ^ l.length + Nat.ofDigits 10 l := by
  induction l generalizing a with
  | nil => simp
  | cons d t ih =>
    rw [List.map_cons, List.reverse_cons, List.foldl_append,
      ih (fun x hx => hl x (List.mem_cons_of_mem _ hx)) a]
    simp only [List.foldl_cons, List.foldl_nil, Nat.ofDigits_cons, List.length_cons,
      (digitChar_props d (hl d (List.mem_cons_self _ _))).2.2.2]
    rw [pow_succ]
    ring

theorem digitsVal_natStr (n : Nat) : digitsVal (natStr n) = some n := by
  by_cases h : n = 0
  · rw [h]; decide
  · have hne : natStr n ≠ [] := natStr_ne_nil n
    have hdig : (natStr n).all Char.isDigit = true := by
      rw [List.all_eq_true]
      intro c hc
      exact (natStr_chars n c hc).1
    unfold digitsVal
    rw [if_pos ⟨hne, hdig⟩]
    congr 1
    unfold natStr
    rw [if_neg h,
      foldl_digitChar (Nat.digits 10 n)
        (fun d hd => Nat.digits_lt_base (by norm_num) hd) 0,
      Nat.ofDigits_digits]
    ring

theorem pyStrip_eq_self (l : List Char) (h : ∀ c ∈ l, c.isWhitespace = false) :
    pyStrip l = l := by
  have hdrop : ∀ m : List Char, (∀ c ∈ m, c.isWhitespace = false) →
      m.dropWhile Char.isWhitespace = m := by
    intro m hm
    cases m with
    | nil => rfl
    | cons c t =>
      rw [List.dropWhile_cons, hm c (List.mem_cons_self c t)]
      simp
  unfold pyStrip
  rw [hdrop l h, hdrop l.reverse (fun c hc => h c (List.mem_reverse.mp hc)),
    List.reverse_reverse]

theorem pyInt_natStr (n : Nat) : pyInt (natStr n) = some (n : Int) := by
  obtain ⟨c, rest, hc⟩ := List.exists_cons_of_ne_nil (natStr_ne_nil n)
  have hcd : c.isDigit = true :=
    (natStr_chars n c (by rw [hc]; exact List.mem_cons_self c rest)).1
  have hstrip : pyStrip (natStr n) = natStr n :=
    pyStrip_eq_self _ (fun ch hch => (natStr_chars n ch hch).2.1)
  have hm : (natStr n).head? ≠ some '-' := by
    rw [hc, List.head?_cons]
    intro he
    rw [Option.some.injEq] at he
    rw [he] at hcd
    exact absurd hcd (by decide)
  have hp : (natStr n).head? ≠ some '+' := by
    rw [hc, List.head?_cons]
    intro he
    rw [Option.some.injEq] at he
    rw [he] at hcd
    exact absurd hcd (by decide)
  simp only [pyInt]
  rw [hstrip, if_neg hm, if_neg hp, digitsVal_natStr]
  rfl

theorem pyInt_intStr_nonneg (x : Int) (hx : 0 ≤ x) : pyInt (intStr x) = some x := by
  unfold intStr
  rw [if_neg (by omega), pyInt_natStr]
  congr 1
  exact Int.natAbs_of_nonneg hx

theorem splitOnComma_no_comma (l : List Char) (h : ∀ c ∈ l, c ≠ ',') :
    splitOnComma l = [l] := by
  induction l with
  | nil => rfl
  | cons c t ih =>
    simp only [splitOnComma]
    rw [if_neg (h c (List.mem_cons_self c t)),
      ih (fun x hx => h x (List.mem_cons_of_mem _ hx))]

theorem splitOnComma_ne_nil (l : List Char) : splitOnComma l ≠ [] := by
  cases l with
  | nil => simp [splitOnComma]
  | cons c t =>
    simp only [splitOnComma]
    split
    · simp
    · split <;> simp

theorem splitOnComma_append (a b : List Char) (h : ∀ c ∈ a, c ≠ ',') :
    splitOnComma (a ++ ',' :: b) = a :: splitOnComma b := by
  induction a with
  | nil =>
    simp [splitOnComma]
  | cons c t ih =>
    simp only [List.cons_append, splitOnComma, List.append_eq]
    rw [if_neg (h c (List.mem_cons_self c t)),
      ih (fun x hx => h x (List.mem_cons_of_mem _ hx))]

theorem renderCell_ne_nil (c : Int × Int) : renderCell c ≠ [] := by
  simp [renderCell]

theorem pyStrip_renderCell (c : Int × Int) (h1 : 0 ≤ c.1) (h2 : 0 ≤ c.2) :
    pyStrip (renderCell c) = renderCell c := by
  apply pyStrip_eq_self
  intro ch hch
  unfold renderCell intStr at hch
  rw [if_neg (by omega), if_neg (by omega)] at hch
  rcases List.mem_append.mp hch with hm | hm
  · exact (natStr_chars _ ch hm).2.1
  · rcases List.mem_cons.mp hm with rfl | hm
    · decide
    · exact (natStr_chars _ ch hm).2.1

theorem parseLine_renderCell (c : Int × Int) (h1 : 0 ≤ c.1) (h2 : 0 ≤ c.2) :
    parseLine (renderCell c) = some c := by
  obtain ⟨cx, cy⟩ := c
  simp only at h1 h2
  have hx : intStr cx = natStr cx.natAbs := by
    unfold intStr; rw [if_neg (by omega)]
  have hy : intStr cy = natStr cy.natAbs := by
    unfold intStr; rw [if_neg (by omega)]
  unfold parseLine renderCell
  simp only [hx, hy]
  rw [splitOnComma_append _ _ (fun ch hch => (natStr_chars _ ch hch).2.2),
    splitOnComma_no_comma _ (fun ch hch => (natStr_chars _ ch hch).2.2),
    List.map_cons, List.map_cons, List.map_nil, pyInt_natStr, pyInt_natStr]
  simp [Int.natAbs_of_nonneg h1, Int.natAbs_of_nonneg h2]

/-! ## Loading behaviour (C3, C4) -/

namespace GameOfLife

theorem loadLoop_cons_blank (g : GameOfLife) (line : List Char)
    (rest : List (List Char)) (hs : pyStrip line = []) :
    loadLoop g (line :: rest) = loadLoop g rest := by
  simp only [loadLoop]
  rw [if_pos hs]

theorem loadLoop_cons_bad (g : GameOfLife) (line : List Char)
    (rest : List (List Char)) (hs : pyStrip line ≠ [])
    (hp : parseLine (pyStrip line) = none) :
    loadLoop g (line :: rest) = (g, some line) := by
  simp only [loadLoop]
  rw [if_neg hs, hp]

theorem loadLoop_cons_ok (g : GameOfLife) (line : List Char)
    (rest : List (List Char)) (x y : Int) (hs : pyStrip line ≠ [])
    (hp : parseLine (pyStrip line) = some (x, y)) :
    loadLoop g (line :: rest) =
      loadLoop
        (if g.inBounds (x, y) then { g with live_cells := insert (x, y) g.live_cells }
         else g) rest := by
  simp only [loadLoop]
  rw [if_neg hs, hp]

theorem loadLoop_generation (g : GameOfLife) (lines : List (List Char)) :
    (loadLoop g lines).1.generation = g.generation := by
  induction lines generalizing g with
  | nil => rfl
  | cons line rest ih =>
    by_cases hs : pyStrip line = []
    · rw [loadLoop_cons_blank g line rest hs]; exact ih g
    · cases hp : parseLine (pyStrip line) with
      | none => rw [loadLoop_cons_bad g line rest hs hp]
      | some xy =>
        obtain ⟨x, y⟩ := xy
        rw [loadLoop_cons_ok g line rest x y hs hp]
        by_cases hbnd : g.inBounds (x, y) = true
        · rw [if_pos hbnd]; exact ih _
        · rw [if_neg hbnd]; exact ih g

theorem loadLoop_wf_lines :
    ∀ (good : List (List Char)) (g : GameOfLife) (rest : List (List Char)),
      (∀ l ∈ good, pyStrip l = [] ∨ (parseLine (pyStrip l)).isSome = true) →
      loadLoop g (good ++ rest) = loadLoop (loadLoop g good).1 rest ∧
      (loadLoop g good).2 = none := by
  intro good
  induction good with
  | nil => exact fun g rest _ => ⟨rfl, rfl⟩
  | cons line t ih =>
    intro g rest h
    have hline := h line (List.mem_cons_self _ _)
    have ht : ∀ l ∈ t, pyStrip l = [] ∨ (parseLine (pyStrip l)).isSome = true :=
      fun l hl => h l (List.mem_cons_of_mem _ hl)
    rw [List.cons_append]
    by_cases hs : pyStrip line = []
    · rw [loadLoop_cons_blank g line (t ++ rest) hs, loadLoop_cons_blank g line t hs]
      exact ih g rest ht
    · rcases hline with hs2 | hp
      · exact absurd hs2 hs
      · obtain ⟨xy, hxy⟩ := Option.isSome_iff_exists.mp hp
        obtain ⟨x, y⟩ := xy
        rw [loadLoop_cons_ok g line (t ++ rest) x y hs hxy,
          loadLoop_cons_ok g line t x y hs hxy]
        exact ih _ rest ht

theorem loadLoop_renders (g : GameOfLife) (l : List (Int × Int))
    (h : ∀ c ∈ l, g.inBounds c = true) :
    loadLoop g (l.map renderCell) =
      ({ g with live_cells := g.live_cells ∪ l.toFinset }, none) := by
  induction l generalizing g with
  | nil =>
    simp only [List.map_nil, loadLoop, List.toFinset_nil, Finset.union_empty]
  | cons c t ih =>
    obtain ⟨cx, cy⟩ := c
    have hb := h (cx, cy) (List.mem_cons_self _ _)
    have hnn : 0 ≤ cx ∧ 0 ≤ cy := by
      rw [GameOfLife.inBounds_iff] at hb
      exact ⟨hb.1, hb.2.2.1⟩
    rw [List.map_cons,
      loadLoop_cons_ok g (renderCell (cx, cy)) (t.map renderCell) cx cy
        (by rw [pyStrip_renderCell (cx, cy) hnn.1 hnn.2]
            exact renderCell_ne_nil (cx, cy))
        (by rw [pyStrip_renderCell (cx, cy) hnn.1 hnn.2]
            exact parseLine_renderCell (cx, cy) hnn.1 hnn.2),
      if_pos hb,
      ih { g with live_cells := insert (cx, cy) g.live_cells }
        (fun q hq => h q (List.mem_cons_of_mem _ hq))]
    simp only [List.toFinset_cons, Finset.union_insert, Finset.insert_union]

end GameOfLife

/-- Strict ascending order on emitted lines, compared through the cells
they encode: a line precedes another when both parse and the first cell is
lexicographically smaller (x primary, y secondary). -/
def lineLt (lone ltwo : List Char) : Prop :=
  ∃ a b : Int × Int, parseLine lone = some a ∧ parseLine ltwo = some b ∧
    (a.1 < b.1 ∨ (a.1 = b.1 ∧ a.2 < b.2))

/-- C3: serializing an in-bounds live set S and deserializing the lines
into an engine constructed with the same bounds reproduces S exactly (with
generation reset by the initial clear), and the emitted lines are strictly
ascending in (x, y) lexicographic order, with no blank line and one line
per live cell. -/
theorem C3_round_trip (W H : Int) (S : Finset (Int × Int)) (gen : Int) (p : Bool)
    (hS : ∀ c ∈ S, (⟨W, H, S, gen, p⟩ : GameOfLife).inBounds c = true) :
    GameOfLife.load_pattern (GameOfLife.init W H)
        ((⟨W, H, S, gen, p⟩ : GameOfLife).save_pattern)
      = (⟨W, H, S, 0, true⟩, none) ∧
    List.Sorted lineLt ((⟨W, H, S, gen, p⟩ : GameOfLife).save_pattern) ∧
    (∀ l ∈ (⟨W, H, S, gen, p⟩ : GameOfLife).save_pattern, l ≠ []) ∧
    ((⟨W, H, S, gen, p⟩ : GameOfLife).save_pattern).length = S.card := by
  have hsp : (⟨W, H, S, gen, p⟩ : GameOfLife).save_pattern
      = (Finset.sort lexLe S).map renderCell := rfl
  have hmem : ∀ c ∈ Finset.sort lexLe S, (GameOfLife.init W H).inBounds c = true := by
    intro c hc
    exact hS c ((Finset.mem_sort lexLe).mp hc)
  have hnn : ∀ c ∈ Finset.sort lexLe S, 0 ≤ c.1 ∧ 0 ≤ c.2 := by
    intro c hc
    have hcb := hmem c hc
    rw [GameOfLife.inBounds_iff] at hcb
    exact ⟨hcb.1, hcb.2.2.1⟩
  refine ⟨?_, ?_, ?_, ?_⟩
  · have h0 : GameOfLife.load_pattern (GameOfLife.init W H)
        ((⟨W, H, S, gen, p⟩ : GameOfLife).save_pattern)
        = GameOfLife.loadLoop (GameOfLife.init W H)
            ((Finset.sort lexLe S).map renderCell) := rfl
    rw [h0, GameOfLife.loadLoop_renders (GameOfLife.init W H) _ hmem]
    have h2 : (GameOfLife.init W H).live_cells ∪ (Finset.sort lexLe S).toFinset
        = S := by
      rw [Finset.sort_toFinset]
      exact Finset.empty_union S
    rw [h2]
    rfl
  · rw [hsp]
    unfold List.Sorted
    rw [List.pairwise_map]
    refine List.Pairwise.imp_of_mem ?_
      ((Finset.sort_sorted lexLe S).and (Finset.sort_nodup lexLe S))
    intro a b ha hb hab
    have hna := hnn a ha
    have hnb := hnn b hb
    refine ⟨a, b, parseLine_renderCell a hna.1 hna.2,
      parseLine_renderCell b hnb.1 hnb.2, ?_⟩
    obtain ⟨hle, hne⟩ := hab
    simp only [lexLe] at hle
    rcases hle with hlt | ⟨heq, hle2⟩
    · exact Or.inl hlt
    · right
      refine ⟨heq, ?_⟩
      rcases lt_or_eq_of_le hle2 with h2 | h2
      · exact h2
      · exact absurd (Prod.ext heq h2) hne
  · rw [hsp]
    intro l hl
    rw [List.mem_map] at hl
    obtain ⟨c, _, rfl⟩ := hl
    exact renderCell_ne_nil c
  · rw [hsp, List.length_map, Finset.length_sort]

/-- C3 witness: the round trip and output shape on a concrete 3×3 grid
with live cells (0,1) and (2,0). -/
theorem C3_round_trip_witness :
    (∀ c ∈ ({(0, 1), (2, 0)} : Finset (Int × Int)),
        (⟨3, 3, {(0, 1), (2, 0)}, 7, false⟩ : GameOfLife).inBounds c = true) ∧
    (GameOfLife.load_pattern (GameOfLife.init 3 3)
        ((⟨3, 3, {(0, 1), (2, 0)}, 7, false⟩ : GameOfLife).save_pattern)
      = (⟨3, 3, {(0, 1), (2, 0)}, 0, true⟩, none) ∧
    List.Sorted lineLt ((⟨3, 3, {(0, 1), (2, 0)}, 7, false⟩ : GameOfLife).save_pattern) ∧
    (∀ l ∈ (⟨3, 3, {(0, 1), (2, 0)}, 7, false⟩ : GameOfLife).save_pattern, l ≠ []) ∧
    ((⟨3, 3, {(0, 1), (2, 0)}, 7, false⟩ : GameOfLife).save_pattern).length
      = ({(0, 1), (2, 0)} : Finset (Int × Int)).card) :=
  ⟨by decide, C3_round_trip 3 3 {(0, 1), (2, 0)} 7 false (by decide)⟩

/-- C4 counterexample: loading the lines "1,1" then "a,b" aborts at the
malformed line, but the engine is NOT left cleared — the cell (1,1) applied
from the preceding line remains in the live set. -/
theorem C4_partial_load_cex :
    ((⟨5, 5, {(4, 4)}, 9, false⟩ : GameOfLife).load_pattern
        [['1', ',', '1'], ['a', ',', 'b']]).2 = some ['a', ',', 'b'] ∧
    ((⟨5, 5, {(4, 4)}, 9, false⟩ : GameOfLife).load_pattern
        [['1', ',', '1'], ['a', ',', 'b']]).1.live_cells = {((1 : Int), (1 : Int))} ∧
    ({((1 : Int), (1 : Int))} : Finset (Int × Int)) ≠ ∅ := by decide

/-- C4 amended: a malformed line makes the load abort at once, reporting
the offending raw line, with generation 0 from the initial clear; but the
engine is not re-cleared — it keeps exactly the state reached by loading
the well-formed lines before the malformed one. -/
theorem C4_malformed_aborts (g : GameOfLife) (good rest : List (List Char))
    (bad : List Char)
    (hgood : ∀ l ∈ good, pyStrip l = [] ∨ (parseLine (pyStrip l)).isSome = true)
    (hbad1 : pyStrip bad ≠ []) (hbad2 : parseLine (pyStrip bad) = none) :
    g.load_pattern (good ++ bad :: rest) = ((g.load_pattern good).1, some bad) ∧
    (g.load_pattern (good ++ bad :: rest)).1.generation = 0 := by
  have hsplit := GameOfLife.loadLoop_wf_lines good g.clear (bad :: rest) hgood
  have habort := GameOfLife.loadLoop_cons_bad
    (GameOfLife.loadLoop g.clear good).1 bad rest hbad1 hbad2
  have hmain : g.load_pattern (good ++ bad :: rest)
      = ((g.load_pattern good).1, some bad) := by
    show GameOfLife.loadLoop g.clear (good ++ bad :: rest) = _
    rw [hsplit.1, habort]
    rfl
  refine ⟨hmain, ?_⟩
  rw [hmain]
  show (GameOfLife.loadLoop g.clear good).1.generation = 0
  rw [GameOfLife.loadLoop_generation]
  rfl

/-- C4 witness: the abort behaviour on the concrete lines "1,1" then
"a,b". -/
theorem C4_malformed_aborts_witness :
    (∀ l ∈ [['1', ',', '1']], pyStrip l = [] ∨ (parseLine (pyStrip l)).isSome = true) ∧
    pyStrip ['a', ',', 'b'] ≠ [] ∧
    parseLine (pyStrip ['a', ',', 'b']) = none ∧
    ((⟨5, 5, {(4, 4)}, 9, false⟩ : GameOfLife).load_pattern
        ([['1', ',', '1']] ++ ['a', ',', 'b'] :: []) =
      (((⟨5, 5, {(4, 4)}, 9, false⟩ : GameOfLife).load_pattern [['1', ',', '1']]).1,
        some ['a', ',', 'b']) ∧
    ((⟨5, 5, {(4, 4)}, 9, false⟩ : GameOfLife).load_pattern
        ([['1', ',', '1']] ++ ['a', ',', 'b'] :: [])).1.generation = 0) :=
  ⟨by decide, by decide, by decide,
    C4_malformed_aborts _ _ _ _ (by decide) (by decide) (by decide)⟩
